import Mathlib

/-!
Verification of the GPUQT model-construction core (`model.cu`, `model_lattice.cu`)
against its natural-language specification.

The development shallowly embeds the construction routines as pure Lean
functions:

* the unit-cell expansion of `Model::initialize_lattice_model` together with
  the static helper `find_index` (model_lattice.cu lines 254-264 and 496-552);
* the vacancy pipeline `Model::create_random_numbers`,
  `Model::specify_vacancies`, `Model::find_new_atom_index` and
  `Model::add_vacancies` (model_lattice.cu lines 45-191);
* the minimum-image distance folding of `Model::add_charged_impurities`
  (model_lattice.cu lines 224-240);
* the spin-mode write pattern of `Model::initialize_state`
  (model.cu lines 94-104) and the vacancy-count validation of
  `Model::verify_parameters` (model.cu lines 184-194).

C++ `real` values (float or double) are modelled as rationals; machine
integers are modelled as `ℤ`/`ℕ` (no quantity in the modelled code can
overflow 32-bit on the inputs considered).  The pseudo-random generator is
modelled as an arbitrary sequence `r : ℕ → ℕ` of draws, one per call to
`rand_int(generator)`.
-/

namespace GPUQT

/-- C++ integer division truncates toward zero.  `Model::initialize_lattice_model`
declares `hopping_data` as `std::vector<std::vector<int>>` (model_lattice.cu
line 455-456) yet assigns the `real` amplitudes `hopping_real`, `hopping_imag`
into rows 4 and 5 (lines 487-488), so the amplitudes read from `lattice.in`
undergo a C++ float-to-int conversion, which truncates toward zero.
For a rational `q = num/den` (with `den > 0`) that truncation is `Int.tdiv num den`. -/
def cppTruncToInt (q : ℚ) : ℤ := Int.tdiv q.num (q.den : ℤ)

/-- One entry of an orbital's hopping template, as read from `lattice.in`
(model_lattice.cu lines 478-481): a relative cell offset, a target orbital,
and a complex amplitude given by two real numbers. -/
structure HopEntry where
  dx : ℤ
  dy : ℤ
  dz : ℤ
  m_neighbor : ℕ
  t_real : ℚ
  t_imag : ℚ
  deriving DecidableEq

/-- The values read by `Model::initialize_lattice_model` from `lattice.in`:
cell extents `N_cell[0..2]` (here `Nx`, `Ny`, `Nz`), periodic flags
`pbc[0..2]`, the transport direction, lattice constants (`a0`, `a1`, `a2`),
orbital count, `max_neighbor`, per-orbital intra-cell positions and the
per-orbital hopping templates.  `hops m` lists the `number_of_hoppings[m]`
entries of orbital `m`; its length plays the role of `number_of_hoppings[m]`. -/
structure LatticeInput where
  Nx : ℕ
  Ny : ℕ
  Nz : ℕ
  pbc0 : Bool
  pbc1 : Bool
  pbc2 : Bool
  transport_direction : ℕ
  a0 : ℚ
  a1 : ℚ
  a2 : ℚ
  N_orbital : ℕ
  max_neighbor : ℕ
  x_cell : ℕ → ℚ
  y_cell : ℕ → ℚ
  z_cell : ℕ → ℚ
  hops : ℕ → List HopEntry

/-- The array `pbc[d]` of the source, as a selector on the axis number. -/
def LatticeInput.pbc (inp : LatticeInput) (d : ℕ) : Bool :=
  if d = 0 then inp.pbc0 else if d = 1 then inp.pbc1 else inp.pbc2

/-- The array `N_cell[d]` of the source, as a selector on the axis number. -/
def LatticeInput.N_cell (inp : LatticeInput) (d : ℕ) : ℕ :=
  if d = 0 then inp.Nx else if d = 1 then inp.Ny else inp.Nz

/-- The array `lattice_constant[d]` of the source, as a selector on the axis
number. -/
def LatticeInput.lattice_constant (inp : LatticeInput) (d : ℕ) : ℚ :=
  if d = 0 then inp.a0 else if d = 1 then inp.a1 else inp.a2

/-- Rows 0-2 of `hopping_data`: the cell offset of a template entry along
axis `d` (`hopping_data[d][k]` for `d < 3`, model_lattice.cu lines 483-485). -/
def HopEntry.offset (e : HopEntry) (d : ℕ) : ℤ :=
  if d = 0 then e.dx else if d = 1 then e.dy else e.dz

/-- The per-orbital intra-cell positions (`x_cell`/`y_cell`/`z_cell`) along
axis `d`.  This selector exists only to phrase what the specification asserts
about the displacement scalar; the source itself has no such selector (it
always reads `x_cell`, model_lattice.cu line 540). -/
def LatticeInput.axis_cell (inp : LatticeInput) (d m : ℕ) : ℚ :=
  if d = 0 then inp.x_cell m else if d = 1 then inp.y_cell m else inp.z_cell m

/-- One axis of the static helper `find_index` (model_lattice.cu lines
257-262): add the extent once if negative, subtract it once if out of range
above. -/
def wrap_coordinate (n N : ℤ) : ℤ :=
  let n1 := if n < 0 then n + N else n
  if N ≤ n1 then n1 - N else n1

/-- The static helper `find_index` (model_lattice.cu lines 254-264):
row-major folding `((nx*Ny+ny)*Nz+nz)*N_orbital+m` after per-axis wrapping. -/
def find_index (nx ny nz Nx Ny Nz m N_orbital : ℤ) : ℤ :=
  ((wrap_coordinate nx Nx * Ny + wrap_coordinate ny Ny) * Nz
      + wrap_coordinate nz Nz) * N_orbital + m

/-- The open-boundary skip test of the expansion loop (model_lattice.cu lines
527-530): a hop from cell `(nx1,ny1,nz1)` with template entry `e` is skipped
when some open axis would leave `[0, extent)`. -/
def skip_hop (inp : LatticeInput) (nx1 ny1 nz1 : ℤ) (e : HopEntry) : Bool :=
  (!inp.pbc0 && (decide (e.dx + nx1 < 0) || decide ((inp.Nx : ℤ) ≤ e.dx + nx1)))
  || (!inp.pbc1 && (decide (e.dy + ny1 < 0) || decide ((inp.Ny : ℤ) ≤ e.dy + ny1)))
  || (!inp.pbc2 && (decide (e.dz + nz1 < 0) || decide ((inp.Nz : ℤ) ≤ e.dz + nz1)))

/-- The payload written into one neighbor slot by the expansion loop
(model_lattice.cu lines 532-544): flat target index, displacement scalar `xx`,
and the hopping amplitude as copied out of the integer `hopping_data` rows. -/
structure EmittedHop where
  target : ℤ
  xx : ℚ
  hopping_real : ℚ
  hopping_imag : ℚ

/-- The slot payload computed for one non-skipped hop (model_lattice.cu lines
532-544).  `xx` is `lattice_constant[transport_direction] *
hopping_data[transport_direction][k] + x_cell[target] - x_cell[source]`
exactly as on lines 538-540 — the intra-cell part always uses `x_cell`.
The amplitudes pass through `cppTruncToInt` because `hopping_data` stores
them as `int` (lines 456, 487-488, 543-544). -/
def emit_hop (inp : LatticeInput) (nx1 ny1 nz1 : ℤ) (m : ℕ) (e : HopEntry) :
    EmittedHop where
  target := find_index (e.dx + nx1) (e.dy + ny1) (e.dz + nz1)
    (inp.Nx : ℤ) (inp.Ny : ℤ) (inp.Nz : ℤ) (e.m_neighbor : ℤ) (inp.N_orbital : ℤ)
  xx := inp.lattice_constant inp.transport_direction
      * ((e.offset inp.transport_direction : ℤ) : ℚ)
    + inp.x_cell e.m_neighbor - inp.x_cell m
  hopping_real := (cppTruncToInt e.t_real : ℚ)
  hopping_imag := (cppTruncToInt e.t_imag : ℚ)

/-- The neighbor slots emitted for the atom at cell `(nx1,ny1,nz1)`, orbital
`m`: the template entries of orbital `m` that survive the open-boundary skip,
in template order (the inner loop of model_lattice.cu lines 519-547; `count`
advances only on emission). -/
def atom_hops (inp : LatticeInput) (nx1 ny1 nz1 : ℤ) (m : ℕ) : List EmittedHop :=
  ((inp.hops m).filter (fun e => !skip_hop inp nx1 ny1 nz1 e)).map
    (emit_hop inp nx1 ny1 nz1 m)

/-- The `(nx1, ny1, nz1, m)` iteration order of the quadruple expansion loop
(model_lattice.cu lines 496-502).  For in-range coordinates `find_index` is
exactly the position in this enumeration, so position `n` in this list is the
atom with flat index `n`. -/
def cell_orbital_list (inp : LatticeInput) : List (ℕ × ℕ × ℕ × ℕ) :=
  (List.range inp.Nx).flatMap (fun nx1 =>
    (List.range inp.Ny).flatMap (fun ny1 =>
      (List.range inp.Nz).flatMap (fun nz1 =>
        (List.range inp.N_orbital).map (fun m => (nx1, ny1, nz1, m)))))

/-- The complete neighbor table built by the expansion: entry `n` holds the
slots of atom `n` (the defined prefix of the padded stride
`[n*max_neighbor, n*max_neighbor + neighbor_number[n])` of the flat arrays). -/
def neighbor_table (inp : LatticeInput) : List (List EmittedHop) :=
  (cell_orbital_list inp).map
    (fun c => atom_hops inp (c.1 : ℤ) (c.2.1 : ℤ) (c.2.2.1 : ℤ) c.2.2.2)

/-- `neighbor_number[n]` for every atom `n`, in atom order (model_lattice.cu
line 548). -/
def neighbor_number (inp : LatticeInput) : List ℕ :=
  (neighbor_table inp).map List.length

/-- `number_of_atoms = N_orbital * N_cell[0] * N_cell[1] * N_cell[2]`
(model_lattice.cu line 426). -/
def LatticeInput.number_of_atoms (inp : LatticeInput) : ℕ :=
  inp.N_orbital * inp.Nx * inp.Ny * inp.Nz

/-- Total number of hops dropped by the open-boundary rule across the whole
expansion (the `continue` on model_lattice.cu line 530). -/
def skipped_hops (inp : LatticeInput) : ℕ :=
  ((cell_orbital_list inp).map (fun c =>
    ((inp.hops c.2.2.2).filter
      (fun e => skip_hop inp (c.1 : ℤ) (c.2.1 : ℤ) (c.2.2.1 : ℤ) e)).length)).sum

/-- A lattice configuration that passes every validation of
`Model::initialize_lattice_model` (model_lattice.cu lines 286-424): positive
extents, transport direction in range and periodic, positive lattice
constants, positive orbital count and `max_neighbor`.  The final conjunct is
the input-format contract of the specification (each orbital lists at most
`max_neighbor` hops); the code never checks it but relies on it for the
`hopping_data` and `neighbor_list` strides. -/
def Accepted (inp : LatticeInput) : Prop :=
  0 < inp.Nx ∧ 0 < inp.Ny ∧ 0 < inp.Nz ∧
  inp.transport_direction < 3 ∧
  inp.pbc inp.transport_direction = true ∧
  0 < inp.a0 ∧ 0 < inp.a1 ∧ 0 < inp.a2 ∧
  0 < inp.N_orbital ∧ 0 < inp.max_neighbor ∧
  (∀ m, m < inp.N_orbital → (inp.hops m).length ≤ inp.max_neighbor)

instance (inp : LatticeInput) : Decidable (Accepted inp) := by
  unfold Accepted
  infer_instance

/-- The displacement scalar as the specification words it (§4.1): cell offset
projected on the transport axis, scaled by the transport-axis lattice
constant, plus the intra-cell offset difference between target and source
orbital taken along the transport axis.  Modelled from the spec, for
comparison with `emit_hop`. -/
def spec_xx (inp : LatticeInput) (m : ℕ) (e : HopEntry) : ℚ :=
  inp.lattice_constant inp.transport_direction
      * ((e.offset inp.transport_direction : ℤ) : ℚ)
    + inp.axis_cell inp.transport_direction e.m_neighbor
    - inp.axis_cell inp.transport_direction m

/-- The specification's claim C2, as stated: on every accepted configuration
every emitted slot's `xx` agrees with `spec_xx`. -/
def xx_matches_spec_claim : Prop :=
  ∀ inp : LatticeInput, Accepted inp →
    ∀ nx1 ny1 nz1 : ℤ, ∀ m : ℕ, m < inp.N_orbital →
      ∀ e ∈ inp.hops m, (emit_hop inp nx1 ny1 nz1 m e).xx = spec_xx inp m e

/-- The single template entry of the end-to-end example of the specification:
hop `(1,0,0)`, target orbital 0, amplitude `1 + 0i`. -/
def c1_hop : HopEntry where
  dx := 1
  dy := 0
  dz := 0
  m_neighbor := 0
  t_real := 1
  t_imag := 0

/-- The end-to-end example lattice of the specification: 1 orbital, `2×2×1`
cells, all axes periodic, transport along x, unit lattice constants, and the
single hopping template entry `c1_hop`. -/
def c1_input : LatticeInput where
  Nx := 2
  Ny := 2
  Nz := 1
  pbc0 := true
  pbc1 := true
  pbc2 := true
  transport_direction := 0
  a0 := 1
  a1 := 1
  a2 := 1
  N_orbital := 1
  max_neighbor := 1
  x_cell := fun _ => 0
  y_cell := fun _ => 0
  z_cell := fun _ => 0
  hops := fun m => if m = 0 then [c1_hop] else []

/-- The hopping entry of the transport-along-y counterexample configuration:
a hop from orbital 0 to orbital 1 of the next cell in y, amplitude `1`. -/
def c2_hop : HopEntry where
  dx := 0
  dy := 1
  dz := 0
  m_neighbor := 1
  t_real := 1
  t_imag := 0

/-- An accepted configuration with transport along y and two orbitals whose
intra-cell positions differ along y but not along x. -/
def c2_input : LatticeInput where
  Nx := 1
  Ny := 2
  Nz := 1
  pbc0 := true
  pbc1 := true
  pbc2 := true
  transport_direction := 1
  a0 := 1
  a1 := 1
  a2 := 1
  N_orbital := 2
  max_neighbor := 1
  x_cell := fun _ => 0
  y_cell := fun m => if m = 0 then 0 else 1/2
  z_cell := fun _ => 0
  hops := fun m => if m = 0 then [c2_hop] else []

/-- A hopping template entry whose amplitude `3/2` is real-valued but not
integer-valued. -/
def c3_hop : HopEntry where
  dx := 1
  dy := 0
  dz := 0
  m_neighbor := 0
  t_real := 3/2
  t_imag := 0

/-- The `c1_input` lattice with the hopping amplitude `3/2` instead of `1`. -/
def c3_input : LatticeInput where
  Nx := 2
  Ny := 2
  Nz := 1
  pbc0 := true
  pbc1 := true
  pbc2 := true
  transport_direction := 0
  a0 := 1
  a1 := 1
  a2 := 1
  N_orbital := 1
  max_neighbor := 1
  x_cell := fun _ => 0
  y_cell := fun _ => 0
  z_cell := fun _ => 0
  hops := fun m => if m = 0 then [c3_hop] else []

/-- The index `j` drawn at step `i` of the shuffle of
`Model::create_random_numbers` (model_lattice.cu line 56):
`rand_int(generator) % (max_value - i) + i`, where `r i` is the `i`-th draw of
the shared generator. -/
def shuffle_j (r : ℕ → ℕ) (N i : ℕ) : ℕ := r i % (N - i) + i

/-- One iteration of the shuffle loop (model_lattice.cu lines 54-60): swap the
contents of positions `i` and `j` of `permuted_numbers`, viewed as a function
from positions to contents. -/
def swap_step (r : ℕ → ℕ) (N : ℕ) (p : ℕ → ℕ) (i : ℕ) : ℕ → ℕ :=
  fun x =>
    if x = i then p (shuffle_j r N i)
    else if x = shuffle_j r N i then p i
    else p x

/-- The contents of `permuted_numbers` after the whole shuffle loop of
`Model::create_random_numbers` (model_lattice.cu lines 48-60): starting from
the identity fill `permuted_numbers[i] = i`, apply `swap_step` for
`i = 0, …, max_value-1`. -/
def permuted_numbers (r : ℕ → ℕ) (N : ℕ) : ℕ → ℕ :=
  (List.range N).foldl (swap_step r N) id

/-- The output of `Model::create_random_numbers(max_value = N, total_number =
k, …)` (model_lattice.cu lines 61-64): the first `k` entries of the shuffled
array. -/
def create_random_numbers (r : ℕ → ℕ) (N k : ℕ) : List ℕ :=
  (List.range k).map (permuted_numbers r N)

/-- The `is_vacancy` marks written by `Model::specify_vacancies`
(model_lattice.cu lines 78-85): zero-fill, then set `1` at each sampled
index; equivalently, membership in the sampled index list. -/
def is_vacancy (r : ℕ → ℕ) (N k : ℕ) (n : ℕ) : Bool :=
  decide (n ∈ create_random_numbers r N k)

/-- `Model::find_new_atom_index` (model_lattice.cu lines 92-104): the new
compact index of pristine atom `n` is the number of non-vacant atoms strictly
before it (the forward-scan counter at the moment `n` is visited). -/
def find_new_atom_index (v : ℕ → Bool) (n : ℕ) : ℕ :=
  ((List.range n).filter (fun j => !v j)).length

/-- The pristine atoms kept by `Model::add_vacancies`, in the original scan
order of the outer loop (model_lattice.cu lines 159-161). -/
def survivors (v : ℕ → Bool) (N : ℕ) : List ℕ :=
  (List.range N).filter (fun n => !v n)

/-- The neighbor arrays of a model before vacancy removal, in the flat padded
layout of the source: atom `n`'s slot `m` lives at flat index
`n * max_neighbor + m`. -/
structure LatticeModel where
  number_of_atoms : ℕ
  max_neighbor : ℕ
  neighbor_number : ℕ → ℕ
  neighbor_list : ℕ → ℕ
  hopping_real : ℕ → ℚ
  hopping_imag : ℕ → ℚ
  xx : ℕ → ℚ

/-- Well-formedness of a pristine model, as the data model of the
specification states it: per-atom neighbor counts fit the stride and every
stored target is a valid atom index. -/
def LatticeModel.WellFormed (P : LatticeModel) : Prop :=
  ∀ n, n < P.number_of_atoms →
    P.neighbor_number n ≤ P.max_neighbor ∧
    ∀ m, m < P.neighbor_number n →
      P.neighbor_list (n * P.max_neighbor + m) < P.number_of_atoms

instance (P : LatticeModel) : Decidable P.WellFormed := by
  unfold LatticeModel.WellFormed
  infer_instance

/-- The flat indices of the valid slots of pristine atom `n` (the inner loop
of model_lattice.cu lines 164-166): `index_old = n * max_neighbor + m` for
`m < neighbor_number_pristine[n]`. -/
def pristine_slots (P : LatticeModel) (n : ℕ) : List ℕ :=
  (List.range (P.neighbor_number n)).map (fun m => n * P.max_neighbor + m)

/-- The slots of pristine atom `n` kept by `Model::add_vacancies`: those whose
stored target is not vacant (the test on model_lattice.cu line 168), in
original slot order. -/
def surviving_slots (P : LatticeModel) (v : ℕ → Bool) (n : ℕ) : List ℕ :=
  (pristine_slots P n).filter (fun idx => !v (P.neighbor_list idx))

/-- The slots of pristine atom `n` dropped by `Model::add_vacancies` because
their target is vacant. -/
def vacant_neighbor_count (P : LatticeModel) (v : ℕ → Bool) (n : ℕ) : ℕ :=
  ((pristine_slots P n).filter (fun idx => v (P.neighbor_list idx))).length

/-- One slot of the rebuilt neighbor table: the remapped target index and the
payloads copied from the pristine arrays (model_lattice.cu lines 171-174). -/
structure RebuiltHop where
  target : ℕ
  hopping_real : ℚ
  hopping_imag : ℚ
  xx : ℚ

/-- The neighbor table rebuilt by `Model::add_vacancies` (model_lattice.cu
lines 157-181): the surviving atoms in original order (`count_atom` order);
for each, its surviving slots in original order (`count_neighbor` order),
re-targeted through `find_new_atom_index` with payloads copied from the
pristine arrays.  Entry `a` of this list holds the slots written at flat
indices `a * max_neighbor + c`, `c < neighbor_number[a]`, of the new arrays. -/
def rebuilt_table (P : LatticeModel) (v : ℕ → Bool) : List (List RebuiltHop) :=
  (survivors v P.number_of_atoms).map (fun n =>
    (surviving_slots P v n).map (fun idx =>
      RebuiltHop.mk (find_new_atom_index v (P.neighbor_list idx))
        (P.hopping_real idx) (P.hopping_imag idx) (P.xx idx)))

/-- The sequence of indices at which `permuted_numbers` is read or written by
`Model::create_random_numbers` with `max_value = N`, `total_number = k`
(model_lattice.cu lines 48-64): the identity fill at `i < N`, the swap at `i`
and `j` for each shuffle step `i < N`, and the copy-out reads at `i < k`. -/
def crn_perm_accesses (r : ℕ → ℕ) (N k : ℕ) : List ℕ :=
  List.range N
    ++ (List.range N).flatMap (fun i => [i, shuffle_j r N i])
    ++ List.range k

/-- The indices at which the caller-provided `random_numbers` output buffer is
written (model_lattice.cu line 63). -/
def crn_out_accesses (k : ℕ) : List ℕ := List.range k

/-- The indices at which `vacancy_indices` is read by
`Model::specify_vacancies` (model_lattice.cu line 84). -/
def sv_vacancy_reads (k : ℕ) : List ℕ := List.range k

/-- The indices at which `is_vacancy` is written by `Model::specify_vacancies`
(model_lattice.cu lines 78-85): the zero-fill at `n < N`, then
`vacancy_indices[n]` for `n < k`. -/
def sv_is_vacancy_accesses (r : ℕ → ℕ) (N k : ℕ) : List ℕ :=
  List.range N ++ create_random_numbers r N k

/-- The only validation `Model::verify_parameters` applies to the vacancy
count (model.cu lines 184-194): `number_of_vacancies > 0`.  There is no upper
bound check. -/
def vacancy_count_check (k : ℤ) : Bool := decide (0 < k)

/-- The per-axis separation actually accumulated into the squared distance by
`Model::add_charged_impurities` (model_lattice.cu lines 232-240): take the
absolute raw separation; on a periodic axis, if it exceeds half the box
length, replace it by box length minus it. -/
def min_image_axis (pbc : Bool) (L s : ℚ) : ℚ :=
  if pbc && decide (L / 2 < |s|) then L - |s| else |s|

/-- The squared distance `d12_square` of `Model::add_charged_impurities`
(model_lattice.cu lines 231-240): sum over the three axes of the squared
per-axis separation. -/
def d12_square (pbc0 pbc1 pbc2 : Bool) (L0 L1 L2 s0 s1 s2 : ℚ) : ℚ :=
  min_image_axis pbc0 L0 s0 * min_image_axis pbc0 L0 s0
    + min_image_axis pbc1 L1 s1 * min_image_axis pbc1 L1 s1
    + min_image_axis pbc2 L2 s2 * min_image_axis pbc2 L2 s2

/-- The loop counter values of the spin-mode branch of
`Model::initialize_state` (model.cu line 96): `n = 0, 2, 4, …` while
`n < number_of_atoms`, i.e. the even numbers below `number_of_atoms`. -/
def spin_loop_indices (N : ℕ) : List ℕ :=
  (List.range N).filter (fun n => decide (n % 2 = 0))

/-- The buffer indices written by the spin-mode branch of
`Model::initialize_state` (model.cu lines 98-102): each iteration writes the
random-phase amplitude at `n` and zero at `n + 1`. -/
def spin_written_indices (N : ℕ) : List ℕ :=
  (spin_loop_indices N).flatMap (fun n => [n, n + 1])

/-- A concrete 2-atom pristine model (two atoms hopping to each other, one
slot each) used to instantiate the vacancy theorems. -/
def test_model : LatticeModel where
  number_of_atoms := 2
  max_neighbor := 1
  neighbor_number := fun _ => 1
  neighbor_list := fun idx => if idx = 0 then 1 else 0
  hopping_real := fun _ => 0
  hopping_imag := fun _ => 0
  xx := fun _ => 0

/-- A concrete generator sequence that always draws zero. -/
def test_r : ℕ → ℕ := fun _ => 0

lemma swap_step_eq (r : ℕ → ℕ) (N : ℕ) (p : ℕ → ℕ) (i : ℕ) :
    swap_step r N p i = p ∘ (Equiv.swap i (shuffle_j r N i)) := by
  funext x
  simp only [swap_step, Function.comp, Equiv.swap_apply_def]
  by_cases h1 : x = i
  · simp [h1]
  · by_cases h2 : x = shuffle_j r N i
    · by_cases h3 : shuffle_j r N i = i <;> simp [h1, h2, h3]
    · simp [h1, h2]

lemma foldl_swap_injective (r : ℕ → ℕ) (N : ℕ) (l : List ℕ) :
    ∀ p : ℕ → ℕ, Function.Injective p →
      Function.Injective (l.foldl (swap_step r N) p) := by
  induction l with
  | nil => intro p hp; simpa using hp
  | cons i t ih =>
      intro p hp
      rw [List.foldl_cons]
      refine ih _ ?_
      rw [swap_step_eq]
      exact hp.comp (Equiv.swap i (shuffle_j r N i)).injective

lemma permuted_numbers_injective (r : ℕ → ℕ) (N : ℕ) :
    Function.Injective (permuted_numbers r N) :=
  foldl_swap_injective r N (List.range N) id fun _ _ h => h

lemma shuffle_j_ge (r : ℕ → ℕ) (N i : ℕ) : i ≤ shuffle_j r N i := by
  simp only [shuffle_j]
  omega

lemma shuffle_j_lt (r : ℕ → ℕ) (N i : ℕ) (h : i < N) : shuffle_j r N i < N := by
  have h1 : r i % (N - i) < N - i := Nat.mod_lt _ (by omega)
  simp only [shuffle_j]
  omega

lemma foldl_swap_maps (r : ℕ → ℕ) (N : ℕ) (l : List ℕ) :
    (∀ i ∈ l, i < N) → ∀ p : ℕ → ℕ, (∀ x, x < N → p x < N) →
      ∀ x, x < N → (l.foldl (swap_step r N) p) x < N := by
  induction l with
  | nil => intro _ p hp x hx; exact hp x hx
  | cons i t ih =>
      intro hl p hp x hx
      rw [List.foldl_cons]
      refine ih (fun j hj => hl j (List.mem_cons_of_mem i hj)) _ ?_ x hx
      intro y hy
      have hi : i < N := hl i (List.mem_cons_self i t)
      have hj : shuffle_j r N i < N := shuffle_j_lt r N i hi
      simp only [swap_step]
      by_cases h1 : y = i
      · rw [if_pos h1]; exact hp _ hj
      · rw [if_neg h1]
        by_cases h2 : y = shuffle_j r N i
        · rw [if_pos h2]; exact hp _ hi
        · rw [if_neg h2]; exact hp _ hy

lemma permuted_numbers_lt (r : ℕ → ℕ) (N x : ℕ) (hx : x < N) :
    permuted_numbers r N x < N :=
  foldl_swap_maps r N (List.range N) (fun i hi => List.mem_range.mp hi)
    id (fun _ h => h) x hx

lemma crn_length (r : ℕ → ℕ) (N k : ℕ) :
    (create_random_numbers r N k).length = k := by
  simp [create_random_numbers]

lemma crn_nodup (r : ℕ → ℕ) (N k : ℕ) :
    (create_random_numbers r N k).Nodup :=
  (List.nodup_range k).map (permuted_numbers_injective r N)

lemma crn_mem_lt (r : ℕ → ℕ) (N k : ℕ) (hk : k ≤ N) :
    ∀ x ∈ create_random_numbers r N k, x < N := by
  intro x hx
  simp only [create_random_numbers, List.mem_map, List.mem_range] at hx
  obtain ⟨i, hi, rfl⟩ := hx
  exact permuted_numbers_lt r N i (lt_of_lt_of_le hi hk)

lemma permuted_range_perm (r : ℕ → ℕ) (N : ℕ) :
    ((List.range N).map (permuted_numbers r N)).Perm (List.range N) := by
  have hnd : ((List.range N).map (permuted_numbers r N)).Nodup :=
    (List.nodup_range N).map (permuted_numbers_injective r N)
  have hsub : (List.range N).map (permuted_numbers r N) ⊆ List.range N := by
    intro x hx
    simp only [List.mem_map, List.mem_range] at hx
    obtain ⟨i, hi, rfl⟩ := hx
    exact List.mem_range.mpr (permuted_numbers_lt r N i hi)
  exact (hnd.subperm hsub).perm_of_length_le (by simp)

lemma crn_eq_take (r : ℕ → ℕ) (N k : ℕ) (hk : k ≤ N) :
    create_random_numbers r N k
      = ((List.range N).map (permuted_numbers r N)).take k := by
  unfold create_random_numbers
  rw [← List.map_take, List.take_range, Nat.min_eq_left hk]

lemma length_filter_split (p : ℕ → Bool) (l : List ℕ) :
    (l.filter p).length + (l.filter (fun a => !p a)).length = l.length := by
  induction l with
  | nil => rfl
  | cons a t ih =>
      by_cases h : p a = true
      · simp [List.filter_cons, h]
        omega
      · simp [List.filter_cons, h]
        omega

lemma length_filter_not (p : ℕ → Bool) (l : List ℕ) :
    (l.filter (fun a => !p a)).length = l.length - (l.filter p).length := by
  have h := length_filter_split p l
  omega

lemma filter_mem_perm (L : List ℕ) (N : ℕ) (hnd : L.Nodup)
    (hsub : ∀ x ∈ L, x < N) :
    ((List.range N).filter (fun n => decide (n ∈ L))).Perm L := by
  rw [List.perm_ext_iff_of_nodup ((List.nodup_range N).filter _) hnd]
  intro a
  simp only [List.mem_filter, List.mem_range, decide_eq_true_eq]
  exact ⟨fun h => h.2, fun h => ⟨hsub a h, h⟩⟩

lemma survivors_length (r : ℕ → ℕ) (N k : ℕ) (hk : k ≤ N) :
    (survivors (is_vacancy r N k) N).length = N - k := by
  have hperm := filter_mem_perm (create_random_numbers r N k) N
    (crn_nodup r N k) (crn_mem_lt r N k hk)
  have h1 : ((List.range N).filter
      (fun n => decide (n ∈ create_random_numbers r N k))).length = k := by
    rw [hperm.length_eq, crn_length]
  simp only [survivors, is_vacancy]
  rw [length_filter_not, h1, List.length_range]

lemma find_new_atom_index_lt (v : ℕ → Bool) (N t : ℕ) (ht : t < N)
    (hv : v t = false) :
    find_new_atom_index v t < (survivors v N).length := by
  have hsubl : List.Sublist ((List.range (t+1)).filter (fun n => !v n))
      ((List.range N).filter (fun n => !v n)) :=
    (List.range_sublist.mpr ht).filter _
  have heq : (List.range (t+1)).filter (fun n => !v n)
      = ((List.range t).filter (fun n => !v n)) ++ [t] := by
    rw [List.range_succ, List.filter_append]
    simp [hv]
  have hlen := hsubl.length_le
  rw [heq] at hlen
  simp only [List.length_append, List.length_cons, List.length_nil] at hlen
  unfold find_new_atom_index survivors
  omega

lemma sum_map_const (l : List ℕ) (c : ℕ) :
    (l.map (fun _ => c)).sum = l.length * c := by
  induction l with
  | nil => simp
  | cons a t ih =>
      simp [ih]
      ring

lemma length_flatMap_const {α β : Type} (l : List α) (f : α → List β) (c : ℕ)
    (h : ∀ a ∈ l, (f a).length = c) : (l.flatMap f).length = l.length * c := by
  induction l with
  | nil => simp
  | cons a t ih =>
      simp only [List.flatMap_cons, List.length_append, List.length_cons]
      rw [h a (List.mem_cons_self a t),
        ih (fun b hb => h b (List.mem_cons_of_mem a hb))]
      ring

lemma cell_orbital_length (inp : LatticeInput) :
    (cell_orbital_list inp).length = inp.number_of_atoms := by
  have h2 : ∀ nx ny : ℕ,
      ((List.range inp.Nz).flatMap (fun nz =>
        (List.range inp.N_orbital).map (fun m => (nx, ny, nz, m)))).length
      = inp.Nz * inp.N_orbital := by
    intro nx ny
    rw [length_flatMap_const _ _ inp.N_orbital (fun a _ => by simp),
      List.length_range]
  have h3 : ∀ nx : ℕ,
      ((List.range inp.Ny).flatMap (fun ny =>
        (List.range inp.Nz).flatMap (fun nz =>
          (List.range inp.N_orbital).map (fun m => (nx, ny, nz, m))))).length
      = inp.Ny * (inp.Nz * inp.N_orbital) := by
    intro nx
    rw [length_flatMap_const _ _ (inp.Nz * inp.N_orbital) (fun a _ => h2 nx a),
      List.length_range]
  unfold cell_orbital_list LatticeInput.number_of_atoms
  rw [length_flatMap_const _ _ (inp.Ny * (inp.Nz * inp.N_orbital))
    (fun a _ => h3 a), List.length_range]
  ring

lemma mem_cell_orbital (inp : LatticeInput) (c : ℕ × ℕ × ℕ × ℕ)
    (hc : c ∈ cell_orbital_list inp) : c.2.2.2 < inp.N_orbital := by
  simp only [cell_orbital_list, List.mem_flatMap, List.mem_map,
    List.mem_range] at hc
  obtain ⟨nx, hnx, ny, hny, nz, hnz, m, hm, rfl⟩ := hc
  exact hm

/-- C1: On the accepted 1-orbital `2×2×1` fully periodic lattice with
transport along x and the single hopping template entry
`(1,0,0, orbital 0, 1+0i)`, the expansion yields `number_of_atoms = 4` and
zero open-boundary-skipped hops, but it is NOT the case that every atom gets
`neighbor_number = 2`: the loop emits one slot per template entry, so a
single `(+1,0,0)` entry yields exactly one (wrapped) neighbor per atom. -/
theorem c1_counterexample :
    Accepted c1_input ∧
    LatticeInput.number_of_atoms c1_input = 4 ∧
    skipped_hops c1_input = 0 ∧
    ¬ (∀ cnt ∈ neighbor_number c1_input, cnt = 2) := by
  refine ⟨by decide, by decide, by decide, by decide⟩

/-- C1 (amended): on that same input the expansion produces
`number_of_atoms = 4`, `neighbor_number = 1` for every atom — the single +x
neighbor, periodic-wrapped (targets `[[2],[3],[0],[1]]` in atom order) — and
zero hops skipped by the open-boundary rule; the −x partner would require an
explicit `(-1,0,0)` template entry. -/
theorem c1_lattice_example :
    LatticeInput.number_of_atoms c1_input = 4 ∧
    neighbor_number c1_input = [1, 1, 1, 1] ∧
    (neighbor_table c1_input).map (fun l => l.map EmittedHop.target)
      = [[2], [3], [0], [1]] ∧
    skipped_hops c1_input = 0 := by
  refine ⟨by decide, by decide, by decide, by decide⟩

/-- C2 counterexample: the claim that every emitted slot's `xx` uses the
intra-cell offset difference along the transport axis fails on the accepted
configuration `c2_input` (transport along y, orbitals separated by `1/2`
along y only): the code always takes the intra-cell difference from `x_cell`
(model_lattice.cu line 540), giving `xx = 1` where the transport-axis formula
gives `3/2`. -/
theorem c2_counterexample : ¬ xx_matches_spec_claim := by
  intro h
  have hmem : c2_hop ∈ c2_input.hops 0 := by
    show c2_hop ∈ (if 0 = 0 then [c2_hop] else [])
    simp
  have h1 := h c2_input (by decide) 0 0 0 0 (by decide) c2_hop hmem
  have h2 : (emit_hop c2_input 0 0 0 0 c2_hop).xx = 1 := by
    norm_num [emit_hop, c2_input, c2_hop, LatticeInput.lattice_constant,
      HopEntry.offset]
  have h3 : spec_xx c2_input 0 c2_hop = 3/2 := by
    norm_num [spec_xx, c2_input, c2_hop, LatticeInput.lattice_constant,
      LatticeInput.axis_cell, HopEntry.offset]
  rw [h2, h3] at h1
  norm_num at h1

/-- C2 (amended): for every lattice input and every emitted hop, `xx` equals
the hop's cell offset along the transport axis times the transport-axis
lattice constant, plus the intra-cell offset difference between target and
source orbital taken along the x axis (`x_cell`), whatever the transport
axis; when the transport axis is x this coincides with the specification's
transport-axis formula `spec_xx`. -/
theorem c2_xx_displacement (inp : LatticeInput) (nx1 ny1 nz1 : ℤ) (m : ℕ)
    (e : HopEntry) :
    (emit_hop inp nx1 ny1 nz1 m e).xx
        = inp.lattice_constant inp.transport_direction
            * ((e.offset inp.transport_direction : ℤ) : ℚ)
          + inp.x_cell e.m_neighbor - inp.x_cell m
    ∧ (inp.transport_direction = 0 →
        (emit_hop inp nx1 ny1 nz1 m e).xx = spec_xx inp m e) := by
  constructor
  · rfl
  · intro h
    simp [emit_hop, spec_xx, LatticeInput.axis_cell, h]

/-- Witness for C2 (amended): the first conjunct instantiated at the
transport-along-y input `c2_input`, and the second conjunct discharged at the
transport-along-x input `c1_input`. -/
theorem c2_xx_displacement_witness :
    ((emit_hop c2_input 0 0 0 0 c2_hop).xx
        = c2_input.lattice_constant c2_input.transport_direction
            * ((c2_hop.offset c2_input.transport_direction : ℤ) : ℚ)
          + c2_input.x_cell c2_hop.m_neighbor - c2_input.x_cell 0)
    ∧ (emit_hop c1_input 0 0 0 0 c1_hop).xx = spec_xx c1_input 0 c1_hop :=
  ⟨(c2_xx_displacement c2_input 0 0 0 0 c2_hop).1,
   (c2_xx_displacement c1_input 0 0 0 0 c1_hop).2 rfl⟩

/-- C3: the hopping amplitudes are NOT stored exactly for real-valued
amplitudes.  `hopping_data` is `std::vector<std::vector<int>>`
(model_lattice.cu line 455-456), so the amplitude `3/2` read from the file is
truncated to `1` before being copied into `hopping_real`: at the failing
input `c3_input`, atom `(0,0,0,0)` emits exactly the hop of template entry
`c3_hop` with `t_real = 3/2`, but the stored `hopping_real` is `1 ≠ 3/2`. -/
theorem c3_amplitude_truncated :
    c3_hop.t_real = 3/2 ∧
    atom_hops c3_input 0 0 0 0 = [emit_hop c3_input 0 0 0 0 c3_hop] ∧
    (emit_hop c3_input 0 0 0 0 c3_hop).hopping_real = 1 ∧
    (3/2 : ℚ) ≠ 1 := by
  refine ⟨rfl, rfl, ?_, by norm_num⟩
  have h1 : ((3:ℚ)/2).num = 3 := by norm_num
  have h2 : ((3:ℚ)/2).den = 2 := by norm_num
  have h3 : Int.tdiv 3 ((2:ℕ) : ℤ) = 1 := by decide
  simp only [emit_hop, c3_hop, cppTruncToInt]
  rw [h1, h2, h3]
  norm_num

/-- C4: for every well-formed pristine model with `N` atoms, every generator
sequence and every vacancy count `k` with `0 < k < N`, the table rebuilt by
`add_vacancies` has exactly `N - k` atoms (the code also sets
`number_of_atoms = N - k` directly, model_lattice.cu line 132), and every
surviving hop's remapped target index lies in `[0, N - k)`. -/
theorem c4_add_vacancies (P : LatticeModel) (r : ℕ → ℕ) (k : ℕ)
    (h0 : 0 < k) (hk : k < P.number_of_atoms) (hw : P.WellFormed) :
    (rebuilt_table P (is_vacancy r P.number_of_atoms k)).length
        = P.number_of_atoms - k ∧
    ∀ l ∈ rebuilt_table P (is_vacancy r P.number_of_atoms k),
      ∀ hop ∈ l, hop.target < P.number_of_atoms - k := by
  have hslen := survivors_length r P.number_of_atoms k (le_of_lt hk)
  constructor
  · simp only [rebuilt_table, List.length_map]
    exact hslen
  · intro l hl hop hhop
    simp only [rebuilt_table, List.mem_map] at hl
    obtain ⟨n, hn, rfl⟩ := hl
    simp only [List.mem_map] at hhop
    obtain ⟨idx, hidx, rfl⟩ := hhop
    have hn2 := hn
    simp only [survivors, List.mem_filter, List.mem_range] at hn2
    obtain ⟨hnN, -⟩ := hn2
    simp only [surviving_slots, List.mem_filter] at hidx
    obtain ⟨hidx1, hvtb⟩ := hidx
    simp only [pristine_slots, List.mem_map, List.mem_range] at hidx1
    obtain ⟨m, hm, rfl⟩ := hidx1
    have htgt := (hw n hnN).2 m hm
    have hvt : is_vacancy r P.number_of_atoms k
        (P.neighbor_list (n * P.max_neighbor + m)) = false := by
      simpa using hvtb
    show find_new_atom_index (is_vacancy r P.number_of_atoms k)
        (P.neighbor_list (n * P.max_neighbor + m)) < P.number_of_atoms - k
    rw [← hslen]
    exact find_new_atom_index_lt _ P.number_of_atoms _ htgt hvt

/-- Witness for C4 at the concrete two-atom model with one vacancy. -/
theorem c4_add_vacancies_witness :
    (rebuilt_table test_model (is_vacancy test_r test_model.number_of_atoms 1)).length
        = test_model.number_of_atoms - 1 ∧
    ∀ l ∈ rebuilt_table test_model (is_vacancy test_r test_model.number_of_atoms 1),
      ∀ hop ∈ l, hop.target < test_model.number_of_atoms - 1 :=
  c4_add_vacancies test_model test_r 1 (by decide) (by decide) (by decide)

/-- C5: after `add_vacancies`, every surviving atom keeps exactly its
pristine hops whose targets were not vacant: its new neighbor count is the
pristine count minus the number of its pristine neighbors marked vacant, its
surviving slots are a sublist of its pristine slots (relative order
preserved), the new count never exceeds `max_neighbor`, and its rebuilt hop
list is an entry of the rebuilt table. -/
theorem c5_surviving_atom (P : LatticeModel) (r : ℕ → ℕ) (k n : ℕ)
    (hw : P.WellFormed) (hn : n < P.number_of_atoms)
    (hv : is_vacancy r P.number_of_atoms k n = false) :
    (surviving_slots P (is_vacancy r P.number_of_atoms k) n).length
        = P.neighbor_number n
          - vacant_neighbor_count P (is_vacancy r P.number_of_atoms k) n ∧
    List.Sublist (surviving_slots P (is_vacancy r P.number_of_atoms k) n)
      (pristine_slots P n) ∧
    (surviving_slots P (is_vacancy r P.number_of_atoms k) n).length
        ≤ P.max_neighbor ∧
    (surviving_slots P (is_vacancy r P.number_of_atoms k) n).map
        (fun idx => RebuiltHop.mk
          (find_new_atom_index (is_vacancy r P.number_of_atoms k)
            (P.neighbor_list idx))
          (P.hopping_real idx) (P.hopping_imag idx) (P.xx idx))
      ∈ rebuilt_table P (is_vacancy r P.number_of_atoms k) := by
  have hlen1 : (pristine_slots P n).length = P.neighbor_number n := by
    simp [pristine_slots]
  have hsubl : List.Sublist
      (surviving_slots P (is_vacancy r P.number_of_atoms k) n)
      (pristine_slots P n) := by
    unfold surviving_slots
    exact List.filter_sublist _
  refine ⟨?_, hsubl, ?_, ?_⟩
  · unfold surviving_slots
    rw [length_filter_not, hlen1]
    rfl
  · have h1 := hsubl.length_le
    rw [hlen1] at h1
    exact le_trans h1 (hw n hn).1
  · unfold rebuilt_table
    refine List.mem_map_of_mem _ ?_
    unfold survivors
    rw [List.mem_filter]
    exact ⟨List.mem_range.mpr hn, by simp [hv]⟩

/-- Witness for C5 at the concrete two-atom model: atom 1 survives, its only
neighbor (atom 0) is the vacancy. -/
theorem c5_surviving_atom_witness :
    (surviving_slots test_model (is_vacancy test_r test_model.number_of_atoms 1) 1).length
        = test_model.neighbor_number 1
          - vacant_neighbor_count test_model
              (is_vacancy test_r test_model.number_of_atoms 1) 1 ∧
    List.Sublist
      (surviving_slots test_model (is_vacancy test_r test_model.number_of_atoms 1) 1)
      (pristine_slots test_model 1) ∧
    (surviving_slots test_model (is_vacancy test_r test_model.number_of_atoms 1) 1).length
        ≤ test_model.max_neighbor ∧
    (surviving_slots test_model (is_vacancy test_r test_model.number_of_atoms 1) 1).map
        (fun idx => RebuiltHop.mk
          (find_new_atom_index (is_vacancy test_r test_model.number_of_atoms 1)
            (test_model.neighbor_list idx))
          (test_model.hopping_real idx) (test_model.hopping_imag idx)
          (test_model.xx idx))
      ∈ rebuilt_table test_model (is_vacancy test_r test_model.number_of_atoms 1) :=
  c5_surviving_atom test_model test_r 1 1 (by decide) (by decide) (by decide)

/-- C6: on every accepted lattice configuration the expansion builds exactly
`number_of_atoms = N_orbital * Nx * Ny * Nz` atoms (one table entry per
atom, before any vacancy removal), and every atom's `neighbor_number` is at
most `max_neighbor`. -/
theorem c6_expansion_invariants (inp : LatticeInput) (h : Accepted inp) :
    (neighbor_table inp).length = inp.number_of_atoms ∧
    ∀ cnt ∈ neighbor_number inp, cnt ≤ inp.max_neighbor := by
  obtain ⟨-, -, -, -, -, -, -, -, -, -, hhop⟩ := h
  constructor
  · rw [neighbor_table, List.length_map]
    exact cell_orbital_length inp
  · intro cnt hcnt
    simp only [neighbor_number, List.mem_map] at hcnt
    obtain ⟨l, hl, rfl⟩ := hcnt
    simp only [neighbor_table, List.mem_map] at hl
    obtain ⟨c, hc, rfl⟩ := hl
    have hm := mem_cell_orbital inp c hc
    have hle : (atom_hops inp (c.1 : ℤ) (c.2.1 : ℤ) (c.2.2.1 : ℤ) c.2.2.2).length
        ≤ (inp.hops c.2.2.2).length := by
      simp only [atom_hops, List.length_map]
      exact List.length_filter_le _ _
    exact le_trans hle (hhop c.2.2.2 hm)

/-- Witness for C6 at the concrete accepted input `c1_input`. -/
theorem c6_expansion_invariants_witness :
    (neighbor_table c1_input).length = c1_input.number_of_atoms ∧
    ∀ cnt ∈ neighbor_number c1_input, cnt ≤ c1_input.max_neighbor :=
  c6_expansion_invariants c1_input (by decide)

/-- C7: for `0 < k ≤ N`, `create_random_numbers` returns `k` pairwise
distinct indices, all in `[0, N)`, equal to the first `k` entries of the
shuffled array; the shuffled array is a permutation of `[0, N)`; and each
shuffle step `i < N` picks its swap partner `j` in `[i, N)`. -/
theorem c7_sampling_without_replacement (r : ℕ → ℕ) (N k : ℕ)
    (h0 : 0 < k) (hk : k ≤ N) :
    (create_random_numbers r N k).length = k ∧
    (create_random_numbers r N k).Nodup ∧
    (∀ x ∈ create_random_numbers r N k, x < N) ∧
    ((List.range N).map (permuted_numbers r N)).Perm (List.range N) ∧
    create_random_numbers r N k
      = ((List.range N).map (permuted_numbers r N)).take k ∧
    (∀ i, i < N → i ≤ shuffle_j r N i ∧ shuffle_j r N i < N) := by
  refine ⟨crn_length r N k, crn_nodup r N k, crn_mem_lt r N k hk,
    permuted_range_perm r N, crn_eq_take r N k hk, ?_⟩
  intro i hi
  exact ⟨shuffle_j_ge r N i, shuffle_j_lt r N i hi⟩

/-- Witness for C7 at `N = 2`, `k = 1` with the all-zero draw sequence. -/
theorem c7_sampling_without_replacement_witness :
    (create_random_numbers test_r 2 1).length = 1 ∧
    (create_random_numbers test_r 2 1).Nodup ∧
    (∀ x ∈ create_random_numbers test_r 2 1, x < 2) ∧
    ((List.range 2).map (permuted_numbers test_r 2)).Perm (List.range 2) ∧
    create_random_numbers test_r 2 1
      = ((List.range 2).map (permuted_numbers test_r 2)).take 1 ∧
    (∀ i, i < 2 → i ≤ shuffle_j test_r 2 i ∧ shuffle_j test_r 2 i < 2) :=
  c7_sampling_without_replacement test_r 2 1 (by decide) (by decide)

/-- C8: on a periodic axis the per-axis separation entering the squared
Euclidean distance of `add_charged_impurities` is the minimum-image value:
`L - |s|` whenever the absolute raw separation `|s|` exceeds `L/2`, and
`|s|` itself otherwise; and `d12_square` accumulates exactly the squares of
these per-axis values. -/
theorem c8_minimum_image (pbc : Bool) (L s : ℚ) (hp : pbc = true) :
    (L / 2 < |s| → min_image_axis pbc L s = L - |s|) ∧
    (|s| ≤ L / 2 → min_image_axis pbc L s = |s|) ∧
    (∀ p1 p2 : Bool, ∀ L1 L2 s1 s2 : ℚ,
      d12_square pbc p1 p2 L L1 L2 s s1 s2
        = min_image_axis pbc L s * min_image_axis pbc L s
          + min_image_axis p1 L1 s1 * min_image_axis p1 L1 s1
          + min_image_axis p2 L2 s2 * min_image_axis p2 L2 s2) := by
  refine ⟨?_, ?_, fun _ _ _ _ _ _ => rfl⟩
  · intro h
    simp [min_image_axis, hp, h]
  · intro h
    have h2 : ¬ (L / 2 < |s|) := not_lt.mpr h
    simp [min_image_axis, hp, h2]

/-- Witness for C8 at `pbc = true`, `L = 2`, raw separation `-3/2`. -/
theorem c8_minimum_image_witness :
    ((2:ℚ) / 2 < |(-3/2 : ℚ)| →
      min_image_axis true 2 (-3/2) = 2 - |(-3/2 : ℚ)|) ∧
    (|(-3/2 : ℚ)| ≤ (2:ℚ) / 2 →
      min_image_axis true 2 (-3/2) = |(-3/2 : ℚ)|) ∧
    (∀ p1 p2 : Bool, ∀ L1 L2 s1 s2 : ℚ,
      d12_square true p1 p2 2 L1 L2 (-3/2) s1 s2
        = min_image_axis true 2 (-3/2) * min_image_axis true 2 (-3/2)
          + min_image_axis p1 L1 s1 * min_image_axis p1 L1 s1
          + min_image_axis p2 L2 s2 * min_image_axis p2 L2 s2) :=
  c8_minimum_image true 2 (-3/2) rfl

/-- C9: the spin-mode loop of `initialize_state` writes at every even
`n < number_of_atoms` and at `n + 1`; every written index is in bounds
exactly when `number_of_atoms` is even, and for odd `number_of_atoms` the
final iteration writes index `number_of_atoms`, one past the end. -/
theorem c9_spin_write_bounds (N : ℕ) :
    ((∀ i ∈ spin_written_indices N, i < N) ↔ N % 2 = 0) ∧
    (N % 2 = 1 → N ∈ spin_written_indices N) := by
  have hmem : ∀ i, i ∈ spin_written_indices N ↔
      ∃ n, n < N ∧ n % 2 = 0 ∧ (i = n ∨ i = n + 1) := by
    intro i
    simp only [spin_written_indices, spin_loop_indices, List.mem_flatMap,
      List.mem_filter, List.mem_range, decide_eq_true_eq, List.mem_cons,
      List.not_mem_nil, or_false]
    constructor
    · rintro ⟨n, ⟨hn, he⟩, h⟩
      exact ⟨n, hn, he, h⟩
    · rintro ⟨n, hn, he, h⟩
      exact ⟨n, ⟨hn, he⟩, h⟩
  constructor
  · constructor
    · intro hall
      by_contra hodd
      have h1 : N % 2 = 1 := by omega
      have hNin : N ∈ spin_written_indices N := by
        rw [hmem]
        exact ⟨N - 1, by omega, by omega, Or.inr (by omega)⟩
      exact absurd (hall N hNin) (lt_irrefl N)
    · intro heven i hi
      rw [hmem] at hi
      obtain ⟨n, hn, hpar, hor⟩ := hi
      rcases hor with rfl | rfl
      · exact hn
      · omega
  · intro hodd
    rw [hmem]
    exact ⟨N - 1, by omega, by omega, Or.inr (by omega)⟩

/-- C10: under `0 < k < N` every array access of `create_random_numbers`
(`permuted_numbers` of length `N`, output of length `k`) and of
`specify_vacancies` (`is_vacancy` of length `N`, `vacancy_indices` of length
`k`) is in bounds; and the only check the code itself performs
(`verify_parameters`, model.cu lines 188-193) accepts any positive count —
in particular it accepts `N + 1`, so the upper bound really is an external
precondition. -/
theorem c10_vacancy_access_bounds (r : ℕ → ℕ) (N k : ℕ)
    (h0 : 0 < k) (hk : k < N) :
    (∀ i ∈ crn_perm_accesses r N k, i < N) ∧
    (∀ i ∈ crn_out_accesses k, i < k) ∧
    (∀ i ∈ sv_vacancy_reads k, i < k) ∧
    (∀ i ∈ sv_is_vacancy_accesses r N k, i < N) ∧
    vacancy_count_check (k : ℤ) = true ∧
    vacancy_count_check ((N : ℤ) + 1) = true := by
  refine ⟨?_, ?_, ?_, ?_, ?_, ?_⟩
  · intro i hi
    simp only [crn_perm_accesses, List.mem_append, List.mem_flatMap,
      List.mem_range, List.mem_cons, List.not_mem_nil, or_false] at hi
    rcases hi with (hi | ⟨j, hj, hij⟩) | hi
    · exact hi
    · rcases hij with rfl | rfl
      · exact hj
      · exact shuffle_j_lt r N j hj
    · exact lt_trans hi hk
  · intro i hi
    exact List.mem_range.mp hi
  · intro i hi
    exact List.mem_range.mp hi
  · intro i hi
    simp only [sv_is_vacancy_accesses, List.mem_append, List.mem_range] at hi
    rcases hi with hi | hi
    · exact hi
    · exact crn_mem_lt r N k (le_of_lt hk) i hi
  · simp only [vacancy_count_check, decide_eq_true_eq]
    omega
  · simp only [vacancy_count_check, decide_eq_true_eq]
    omega

/-- Witness for C10 at `N = 2`, `k = 1` with the all-zero draw sequence. -/
theorem c10_vacancy_access_bounds_witness :
    (∀ i ∈ crn_perm_accesses test_r 2 1, i < 2) ∧
    (∀ i ∈ crn_out_accesses 1, i < 1) ∧
    (∀ i ∈ sv_vacancy_reads 1, i < 1) ∧
    (∀ i ∈ sv_is_vacancy_accesses test_r 2 1, i < 2) ∧
    vacancy_count_check ((1 : ℕ) : ℤ) = true ∧
    vacancy_count_check (((2 : ℕ) : ℤ) + 1) = true :=
  c10_vacancy_access_bounds test_r 2 1 (by decide) (by decide)

end GPUQT
